import Mathlib

/-!
Shallow embedding of `src/progress_bar.cpp` (a console progress bar).

Machine integers (`uint64_t`, `int`, `size_t`) are modelled as `ℕ` / `ℤ`
(no argument in the claims reaches the overflow range), `double` values as
`ℚ` with exact arithmetic, and the output stream as the `String` of bytes
written.  Wall-clock inputs (elapsed time since `start_time_`, the
timestamp text of logging mode) are passed as explicit parameters.
-/

/-- Right-align a string in a field of width `w`, filling with `fill` on the
left; models both `snprintf` width padding and `ostream` `setw`/`fill`. -/
def padLeftWith (fill : Char) (w : ℕ) (s : String) : String :=
  if s.length < w then String.mk (List.replicate (w - s.length) fill) ++ s else s

/-- Decimal digit count of `n`; equals `floor(log10 n) + 1` for `n ≥ 1`
(and is 1 for `n = 0`). -/
def digitLen (n : ℕ) : ℕ := (Nat.toDigits 10 n).length

/-- Truncation toward zero of a rational, as C++ `duration_cast` /
float-to-integer conversion does. -/
def ratTrunc (q : ℚ) : ℤ := if q < 0 then -⌊-q⌋ else ⌊q⌋

/-- floor(log10 a) for a positive rational `a`, computed from decimal digit
counts (no real logarithm needed: exact on ℚ). -/
def ratLog10 (a : ℚ) : ℤ :=
  if 1 ≤ a then (digitLen (Int.toNat ⌊a⌋) : ℤ) - 1
  else
    let f : ℤ := (digitLen (Int.toNat ⌊a⁻¹⌋) : ℤ) - 1
    if 1 ≤ a * (10 : ℚ) ^ f then -f else -(f + 1)

/-- Drop trailing `'0'` characters. -/
def stripTrailingZeros (l : List Char) : List Char :=
  (l.reverse.dropWhile (fun c => c = '0')).reverse

/-- Fixed/scientific rendering of six significant digits `ds` (most
significant first) with decimal exponent `e`, following C++ default
`ostream` float output (`%g` with precision 6, trailing zeros removed). -/
def fmtG6Digits (ds : List Char) (e : ℤ) : String :=
  if -4 ≤ e ∧ e < 6 then
    if 0 ≤ e then
      let k := e.toNat + 1
      let fp := stripTrailingZeros (ds.drop k)
      String.mk (ds.take k) ++ (if fp = [] then "" else "." ++ String.mk fp)
    else
      let zeros := List.replicate ((-e).toNat - 1) '0'
      let fp := stripTrailingZeros ds
      "0." ++ String.mk zeros ++ String.mk fp
  else
    let fp := stripTrailingZeros (ds.drop 1)
    let expAbs := e.natAbs
    let expStr := (if e < 0 then "-" else "+")
      ++ (if expAbs < 10 then "0" else "") ++ Nat.repr expAbs
    String.mk (ds.take 1) ++ (if fp = [] then "" else "." ++ String.mk fp)
      ++ "e" ++ expStr

/-- Default `ostream` rendering of a `double` value (C++ `ss << x` for a
`double`): 6 significant digits, `%g`-style, trailing zeros removed.
Used by `BeautifyDuration` for the seconds field. -/
def fmtG6 (q : ℚ) : String :=
  if q = 0 then "0"
  else
    let sign := if q < 0 then "-" else ""
    let a := |q|
    let e : ℤ := ratLog10 a
    let n0 : ℕ := (round (a * (10 : ℚ) ^ (5 - e))).toNat
    let n : ℕ := if 10 ^ 6 ≤ n0 then n0 / 10 else n0
    let e2 : ℤ := if 10 ^ 6 ≤ n0 then e + 1 else e
    sign ++ fmtG6Digits (Nat.toDigits 10 n) e2

/-- Decimal rendering of `round(10 * value)` as `snprintf "%5.1f"` does:
one fractional digit, right-aligned in a 5-character field. -/
def fmt51OfInt (n : ℤ) : String :=
  padLeftWith ' ' 5
    ((if n < 0 then "-" else "")
      ++ Nat.repr (n.natAbs / 10) ++ "." ++ Nat.repr (n.natAbs % 10))

/-- Model of `snprintf(buf, _, "%5.1f", x)`: the value is rounded to one
decimal place and right-aligned in a width-5 field. -/
def fmt51 (x : ℚ) : String := fmt51OfInt (round (x * 10))

/-- Model of `get_progress_summary` (progress_bar.cpp:115-125): a buffer of
`kCharacterWidthPercentage = 7` spaces is overwritten by
`snprintf(buf, 7, "%5.1f%%", ratio * 100)` — which writes at most 6
characters plus a terminating NUL — and the final character of the buffer
is then removed by `pop_back()`. -/
def get_progress_summary (progress_ratio : ℚ) : String :=
  let s := fmt51 (progress_ratio * 100) ++ "%"
  let written := s.toList.take 6 ++ [Char.ofNat 0]
  let buffer := written ++ List.replicate (7 - written.length) ' '
  String.mk buffer.dropLast

/-- Model of `ProgressBar::RemainingExecutionTime` (progress_bar.cpp:211-220):
`elapsed` is the duration `now - start_time_` in seconds.  If the ratio is
exactly 0 it is replaced by the epsilon `1e-2`; then
`total_s = 1 / ratio * elapsed` and the result is
`total_s - ratio * total_s`. -/
def RemainingExecutionTime (progress_ratio : ℚ) (elapsed : ℚ) : ℚ :=
  let r := if progress_ratio = 0 then (1 : ℚ) / 100 else progress_ratio
  let total_s := 1 / r * elapsed
  total_s - r * total_s

/-- Model of `ProgressBar::BeautifyDuration` (progress_bar.cpp:223-254):
split a second count into days/hours/minutes by truncating casts
(`duration_cast`), then print the nonzero leading units, zero-padding to
width 2 (stream `fill('0')` + `setw(2)`) every unit below the first
printed one; the remaining seconds are streamed as a plain `double`. -/
def BeautifyDuration (input_seconds : ℚ) : String :=
  let d : ℤ := ratTrunc (input_seconds / 86400)
  let q1 : ℚ := input_seconds - (d : ℚ) * 86400
  let h : ℤ := ratTrunc (q1 / 3600)
  let q2 : ℚ := q1 - (h : ℚ) * 3600
  let m : ℤ := ratTrunc (q2 / 60)
  let q3 : ℚ := q2 - (m : ℚ) * 60
  (if d ≠ 0 then Int.repr d ++ "d" else "")
    ++ (if d ≠ 0 ∨ h ≠ 0 then
          (if d ≠ 0 then padLeftWith '0' 2 (Int.repr h) else Int.repr h) ++ "h"
        else "")
    ++ (if d ≠ 0 ∨ h ≠ 0 ∨ m ≠ 0 then
          (if d ≠ 0 ∨ h ≠ 0 then padLeftWith '0' 2 (Int.repr m) else Int.repr m) ++ "m"
        else "")
    ++ (if d ≠ 0 ∨ h ≠ 0 ∨ m ≠ 0 then padLeftWith '0' 2 (fmtG6 q3) else fmtG6 q3)
    ++ "s"

/-- State of a `ProgressBar` object (progress_bar.hpp fields as used by
progress_bar.cpp).  `buffer` is `buffer_`, the previously rendered
interactive line kept so it can be blanked before the next redraw;
`logging_mode` is fixed at construction from `to_terminal`. -/
structure ProgressBar where
  total : ℕ
  progress : ℕ
  description : String
  frequency_update : ℕ
  silent : Bool
  logging_mode : Bool
  buffer : String
  unit_bar : Char
  unit_space : Char
deriving DecidableEq

/-- Model of `ProgressBar::GetBarLength` (progress_bar.cpp:106-113):
`min(consoleWidth, kMaxBarWidth=120) - 9 - description_.size()
 - kCharacterWidthPercentage(7) - floor(log10(max(2,total)) + 1) * 2`,
where `floor(log10(max(2,total))) + 1` is the digit count of
`max 2 total`. -/
def ProgressBar.GetBarLength (st : ProgressBar) (consoleWidth : ℕ) : ℤ :=
  min (consoleWidth : ℤ) 120 - 9 - (st.description.length : ℤ) - 7
    - (digitLen (max 2 st.total) : ℤ) * 2

/-- The progress ratio computed in `ProgressBar::ShowProgress`
(progress_bar.cpp:134-135): `total ? progress / total : 1.0`. -/
def progress_ratio (progress total : ℕ) : ℚ :=
  if total = 0 then 1 else (progress : ℚ) / (total : ℚ)

/-- Model of `ProgressBar::ShowProgress` (progress_bar.cpp:127-181).
Returns the bytes written to the output stream and the new object state.
`consoleWidth` is the current terminal width, `elapsed` the seconds since
`start_time_`, `timestamp` the formatted local-time text of logging mode
(all external inputs).  In logging mode one timestamped line is emitted;
in interactive mode the previous line is first blanked
(`string(buffer_.size(), ' ') + '\r'`) and, unless the computed bar
length is below 1, the new bar line is written and remembered. -/
def ProgressBar.ShowProgress (st : ProgressBar) (consoleWidth : ℕ) (elapsed : ℚ)
    (timestamp : String) (progress : ℕ) : String × ProgressBar :=
  if st.silent then ("", st)
  else
    let ratio := progress_ratio progress st.total
    if st.logging_mode then
      ("[" ++ timestamp ++ "]\t" ++ get_progress_summary ratio
        ++ ", " ++ Nat.repr progress ++ "/" ++ Nat.repr st.total
        ++ ", " ++ BeautifyDuration (RemainingExecutionTime ratio elapsed)
        ++ " remaining" ++ "\n", st)
    else
      let clearing := String.mk (List.replicate st.buffer.length ' ') ++ "\r"
      let bar_size := st.GetBarLength consoleWidth
      if bar_size < 1 then (clearing, { st with buffer := "" })
      else
        let filled := (⌊(bar_size : ℚ) * ratio⌋).toNat
        let line := " " ++ st.description ++ " ["
          ++ String.mk (List.replicate filled st.unit_bar)
          ++ String.mk (List.replicate (bar_size.toNat - filled) st.unit_space)
          ++ "] " ++ get_progress_summary ratio
          ++ ", " ++ Nat.repr progress ++ "/" ++ Nat.repr st.total
          ++ ", " ++ BeautifyDuration (RemainingExecutionTime ratio elapsed)
          ++ " remaining" ++ "\r"
        (clearing ++ line, { st with buffer := line })

/-- Result of one `operator+=` call: the new object state, the bytes
written, and whether `ShowProgress` was invoked. -/
structure StepResult where
  state : ProgressBar
  output : String
  rendered : Bool
deriving DecidableEq

/-- Model of `ProgressBar::operator+=` (progress_bar.cpp:187-209).  If the
bar is silent or `delta` is zero the call returns immediately (before the
`fetch_add`).  Otherwise the counter advances by `delta` and
`ShowProgress` runs exactly when `after == total` or
`(after - delta) / frequency_update < after / frequency_update`; on
reaching `total` a trailing newline is also written. -/
def plusEq (consoleWidth : ℕ) (elapsed : ℚ) (timestamp : String)
    (st : ProgressBar) (delta : ℕ) : StepResult :=
  if st.silent = true ∨ delta = 0 then ⟨st, "", false⟩
  else
    let after := st.progress + delta
    let stAfter := { st with progress := after }
    if after = st.total
        ∨ (after - delta) / st.frequency_update < after / st.frequency_update then
      let sp := stAfter.ShowProgress consoleWidth elapsed timestamp after
      ⟨sp.2, sp.1 ++ (if after = st.total then "\n" else ""), true⟩
    else
      ⟨stAfter, (if after = st.total then "\n" else ""), false⟩

/-- Model of `ProgressBar::SetFrequencyUpdate` (progress_bar.cpp:73-81):
the new value is clamped down to `total` when it exceeds it. -/
def ProgressBar.SetFrequencyUpdate (st : ProgressBar) (fu : ℕ) : ProgressBar :=
  if fu > st.total then { st with frequency_update := st.total }
  else { st with frequency_update := fu }

/-- Number of `ShowProgress` invocations performed by the constructor
(progress_bar.cpp:42-62): a silent bar returns at once; otherwise exactly
one initial render `ShowProgress(0)` is performed. -/
def ctorRenderCount (st : ProgressBar) : ℕ := if st.silent then 0 else 1

/-- Run a sequence of `operator+=` calls; returns the final state, the
number of `ShowProgress` invocations, and the concatenated output. -/
def runIncrements (consoleWidth : ℕ) (elapsed : ℚ) (timestamp : String) :
    ProgressBar → List ℕ → ProgressBar × ℕ × String
  | st, [] => (st, 0, "")
  | st, d :: ds =>
    let r := plusEq consoleWidth elapsed timestamp st d
    let rest := runIncrements consoleWidth elapsed timestamp r.state ds
    (rest.1, (if r.rendered then 1 else 0) + rest.2.1, r.output ++ rest.2.2)

/-- Specification-level count of the renders triggered by a sequence of
increments, starting from counter value `p`: an increment `d` renders iff
`d ≠ 0` and (`p + d = total` or the increment crosses a
`f`-sized bucket boundary). -/
def renderCount (f total : ℕ) : ℕ → List ℕ → ℕ
  | _, [] => 0
  | p, d :: ds =>
    (if d ≠ 0 ∧ (p + d = total ∨ p / f < (p + d) / f) then 1 else 0)
      + renderCount f total (p + d) ds

/-- A non-silent interactive bar used as concrete input: total 100, counter
at 50, 20-character description, previous rendered line "abc". -/
def stInteractive : ProgressBar :=
  ⟨100, 50, "processing          ", 1, false, false, "abc", '=', ' '⟩

/-- A silent bar with counter 0 used as concrete input. -/
def stSilent : ProgressBar :=
  ⟨10, 0, "processing          ", 1, true, false, "", '=', ' '⟩

/-- A non-silent logging-mode bar, total 10 and counter 7, used as concrete
input. -/
def stLogging : ProgressBar :=
  ⟨10, 7, "processing          ", 1, false, true, "", '=', ' '⟩

/-- A non-silent logging-mode bar at counter 0 with total 3 and update
frequency 2, used as concrete input. -/
def stSmall : ProgressBar :=
  ⟨3, 0, "processing          ", 2, false, true, "", '=', ' '⟩


/-! Helper lemmas about the state machine. -/

theorem ShowProgress_fields (st : ProgressBar) (cw : ℕ) (e : ℚ) (ts : String) (p : ℕ) :
    (st.ShowProgress cw e ts p).2.silent = st.silent
    ∧ (st.ShowProgress cw e ts p).2.total = st.total
    ∧ (st.ShowProgress cw e ts p).2.frequency_update = st.frequency_update
    ∧ (st.ShowProgress cw e ts p).2.progress = st.progress := by
  simp only [ProgressBar.ShowProgress]
  split_ifs <;> simp

theorem plusEq_fields (cw : ℕ) (e : ℚ) (ts : String) (st : ProgressBar) (d : ℕ) :
    (plusEq cw e ts st d).state.silent = st.silent
    ∧ (plusEq cw e ts st d).state.total = st.total
    ∧ (plusEq cw e ts st d).state.frequency_update = st.frequency_update := by
  have hsp := ShowProgress_fields { st with progress := st.progress + d } cw e ts
    (st.progress + d)
  simp only [plusEq]
  split_ifs <;> simp [hsp.1, hsp.2.1, hsp.2.2.1]

theorem plusEq_progress (cw : ℕ) (e : ℚ) (ts : String) (st : ProgressBar) (d : ℕ)
    (hs : st.silent = false) :
    (plusEq cw e ts st d).state.progress = st.progress + d := by
  have hsp := ShowProgress_fields { st with progress := st.progress + d } cw e ts
    (st.progress + d)
  simp only [plusEq]
  by_cases h0 : st.silent = true ∨ d = 0
  · rcases h0 with h | h
    · rw [hs] at h; exact absurd h (by simp)
    · rw [if_pos (Or.inr h)]; simp [h]
  · rw [if_neg h0]
    split_ifs <;> simp [hsp.2.2.2]

theorem plusEq_rendered_iff (cw : ℕ) (e : ℚ) (ts : String) (st : ProgressBar) (d : ℕ)
    (hs : st.silent = false) :
    ((plusEq cw e ts st d).rendered = true)
      ↔ (d ≠ 0 ∧ (st.progress + d = st.total
          ∨ st.progress / st.frequency_update
              < (st.progress + d) / st.frequency_update)) := by
  simp only [plusEq]
  have hc : st.progress + d - d = st.progress := by omega
  by_cases hd : d = 0
  · rw [if_pos (Or.inr hd)]
    simp [hd]
  · rw [if_neg (by simp [hs, hd])]
    by_cases h : (st.progress + d = st.total
        ∨ (st.progress + d - d) / st.frequency_update
            < (st.progress + d) / st.frequency_update)
    · rw [if_pos h]
      rw [hc] at h
      simp [hd, h]
    · rw [if_neg h]
      rw [hc] at h
      simp [hd, h]

/-- C1: on every increment of size `delta` on a non-silent bar with
`delta > 0`, a render is triggered exactly when the new count equals
`total` or `(newCount - delta) / frequencyUpdate < newCount / frequencyUpdate`. -/
theorem throttle_renders_iff (cw : ℕ) (e : ℚ) (ts : String) (st : ProgressBar)
    (delta : ℕ) (hs : st.silent = false) (hd : 0 < delta) :
    (plusEq cw e ts st delta).rendered = true
      ↔ (st.progress + delta = st.total
          ∨ (st.progress + delta - delta) / st.frequency_update
              < (st.progress + delta) / st.frequency_update) := by
  rw [plusEq_rendered_iff cw e ts st delta hs]
  have hc : st.progress + delta - delta = st.progress := by omega
  rw [hc]
  simp [Nat.pos_iff_ne_zero.mp hd]

/-- Witness for C1 at a concrete bar (total 10, counter 7, frequency 1)
and `delta = 3`. -/
theorem throttle_renders_iff_witness :
    (plusEq 100 0 "" stLogging 3).rendered = true
      ↔ (stLogging.progress + 3 = stLogging.total
          ∨ (stLogging.progress + 3 - 3) / stLogging.frequency_update
              < (stLogging.progress + 3) / stLogging.frequency_update) :=
  throttle_renders_iff 100 0 "" stLogging 3 rfl (by decide)

/-- C4: the ratio computed by `ShowProgress` lies in `[0, 1]` whenever the
overflow assertion `progress ≤ total` holds, so the invalid-ratio
assertions (progress_bar.cpp:136-137) never fire. -/
theorem ratio_in_unit_interval (progress total : ℕ) (h : progress ≤ total) :
    0 ≤ progress_ratio progress total ∧ progress_ratio progress total ≤ 1 := by
  unfold progress_ratio
  split_ifs with ht
  · norm_num
  · have htpos : 0 < total := Nat.pos_of_ne_zero ht
    have htq : (0 : ℚ) < (total : ℚ) := by exact_mod_cast htpos
    constructor
    · positivity
    · rw [div_le_one htq]
      exact_mod_cast h

/-- Witness for C4 at progress 2 of total 5. -/
theorem ratio_in_unit_interval_witness :
    0 ≤ progress_ratio 2 5 ∧ progress_ratio 2 5 ≤ 1 :=
  ratio_in_unit_interval 2 5 (by decide)

/-- C6: `RemainingExecutionTime` equals `elapsed / ratio - elapsed` with the
ratio replaced by the epsilon `1/100` exactly when it is zero. -/
theorem remaining_time_formula (r e : ℚ) :
    RemainingExecutionTime r e = e / (if r = 0 then (1 : ℚ) / 100 else r) - e := by
  unfold RemainingExecutionTime
  split_ifs with hr
  · ring
  · field_simp

/-- C10: an increment with `delta = 0` on a non-silent bar returns before
the `fetch_add`: the state is unchanged, nothing is rendered, and no
bytes are written. -/
theorem zero_delta_noop (cw : ℕ) (e : ℚ) (ts : String) (st : ProgressBar)
    (hs : st.silent = false) :
    plusEq cw e ts st 0 = ⟨st, "", false⟩ := by
  unfold plusEq
  rw [if_pos (Or.inr rfl)]

/-- Witness for C10 at a concrete non-silent bar. -/
theorem zero_delta_noop_witness :
    plusEq 100 0 "" stLogging 0 = ⟨stLogging, "", false⟩ :=
  zero_delta_noop 100 0 "" stLogging rfl

/-- C5 counterexample: on a silent bar at counter 0, `operator+=(1)` does
not advance the counter to 1 (the function returns before the
`fetch_add`, progress_bar.cpp:191-192), contradicting the claim that the
counter still advances on every increment. -/
theorem silent_advance_counterexample :
    ¬ (plusEq 100 0 "" stSilent 1).state.progress = stSilent.progress + 1 := by
  decide

/-- C5 amended: when `silent` is true, no bytes are written and no render
occurs for any increment pattern, and the whole state — including the
progress counter, which does NOT advance — is unchanged. -/
theorem silent_suppresses_everything (cw : ℕ) (e : ℚ) (ts : String)
    (st : ProgressBar) (hs : st.silent = true) :
    (∀ d, plusEq cw e ts st d = ⟨st, "", false⟩)
    ∧ (∀ ds, runIncrements cw e ts st ds = (st, 0, "")) := by
  have h1 : ∀ d, plusEq cw e ts st d = ⟨st, "", false⟩ := by
    intro d
    unfold plusEq
    rw [if_pos (Or.inl hs)]
  refine ⟨h1, ?_⟩
  intro ds
  induction ds with
  | nil => rfl
  | cons d ds ih => simp [runIncrements, h1, ih]

/-- Witness for C5 (amended) at a concrete silent bar. -/
theorem silent_suppresses_everything_witness :
    plusEq 100 0 "" stSilent 5 = ⟨stSilent, "", false⟩
    ∧ runIncrements 100 0 "" stSilent [1, 2] = (stSilent, 0, "") :=
  ⟨(silent_suppresses_everything 100 0 "" stSilent rfl).1 5,
   (silent_suppresses_everything 100 0 "" stSilent rfl).2 [1, 2]⟩

/-- C7 counterexample: at console width 30 the computed bar length of
`stInteractive` is negative, yet `ShowProgress` still writes bytes (the
blanking of the previous frame, spaces plus a carriage return), so
"nothing is drawn" is false as stated. -/
theorem bar_collapse_output_nonempty :
    ¬ (stInteractive.ShowProgress 30 0 "" 50).1 = "" := by
  decide

/-- C7 amended: in interactive mode, when the computed bar length is below
1 the frame is skipped — no bar line is drawn and only the blanking of
the previous frame (spaces followed by a carriage return) is written,
the remembered buffer is cleared, and the call never fails. -/
theorem bar_collapse_skips_frame (st : ProgressBar) (cw : ℕ) (e : ℚ) (ts : String)
    (p : ℕ) (hs : st.silent = false) (hl : st.logging_mode = false)
    (hb : st.GetBarLength cw < 1) :
    (st.ShowProgress cw e ts p).1
        = String.mk (List.replicate st.buffer.length ' ') ++ "\r"
    ∧ (st.ShowProgress cw e ts p).2 = { st with buffer := "" } := by
  simp [ProgressBar.ShowProgress, hs, hl, hb]

/-- Witness for C7 (amended) at `stInteractive` with console width 30. -/
theorem bar_collapse_skips_frame_witness :
    (stInteractive.ShowProgress 30 0 "" 50).1
        = String.mk (List.replicate stInteractive.buffer.length ' ') ++ "\r"
    ∧ (stInteractive.ShowProgress 30 0 "" 50).2 = { stInteractive with buffer := "" } :=
  bar_collapse_skips_frame stInteractive 30 0 "" 50 rfl rfl (by decide)

/-- C8: `SetFrequencyUpdate(n)` stores `total` when `n > total` and `n`
otherwise; in the clamp case the stored value is positive whenever any
legal increment exists (so the throttle divisions have a nonzero
divisor), and a completion increment always renders regardless of the
stored frequency. -/
theorem set_frequency_update_spec (st : ProgressBar) (n : ℕ) (hs : st.silent = false) :
    (st.SetFrequencyUpdate n).frequency_update = (if st.total < n then st.total else n)
    ∧ (∀ cw e ts d, 0 < d → st.progress + d = st.total →
        (plusEq cw e ts (st.SetFrequencyUpdate n) d).rendered = true)
    ∧ (st.total < n → ∀ p d : ℕ, 0 < d → p + d ≤ st.total →
        0 < (st.SetFrequencyUpdate n).frequency_update) := by
  have hpres : (st.SetFrequencyUpdate n).silent = st.silent
      ∧ (st.SetFrequencyUpdate n).progress = st.progress
      ∧ (st.SetFrequencyUpdate n).total = st.total := by
    unfold ProgressBar.SetFrequencyUpdate
    split_ifs <;> simp
  refine ⟨?_, ?_, ?_⟩
  · unfold ProgressBar.SetFrequencyUpdate
    split_ifs <;> simp
  · intro cw e ts d hd ht
    rw [plusEq_rendered_iff cw e ts _ d (by rw [hpres.1, hs])]
    refine ⟨by omega, Or.inl ?_⟩
    rw [hpres.2.1, hpres.2.2]
    exact ht
  · intro hlt p d hd hpd
    have hval : (st.SetFrequencyUpdate n).frequency_update = st.total := by
      unfold ProgressBar.SetFrequencyUpdate
      rw [if_pos hlt]
    rw [hval]
    omega

/-- Witness for C8 at a concrete bar (total 10, counter 7) with
`n = 200 > total`. -/
theorem set_frequency_update_spec_witness :
    (stLogging.SetFrequencyUpdate 200).frequency_update
        = (if stLogging.total < 200 then stLogging.total else 200)
    ∧ (plusEq 100 0 "" (stLogging.SetFrequencyUpdate 200) 3).rendered = true
    ∧ 0 < (stLogging.SetFrequencyUpdate 200).frequency_update :=
  ⟨(set_frequency_update_spec stLogging 200 rfl).1,
   (set_frequency_update_spec stLogging 200 rfl).2.1 100 0 "" 3 (by decide) (by decide),
   (set_frequency_update_spec stLogging 200 rfl).2.2 (by decide) 7 3 (by decide) (by decide)⟩

/-- C9 counterexample: the claim predicts `BeautifyDuration` maps 0.25
seconds to `"0s"`, but the code streams the sub-second remainder as a
plain double, producing `"0.25s"`. -/
theorem beautify_quarter_counterexample : ¬ BeautifyDuration (1/4) = "0s" := by
  have h : BeautifyDuration (1/4) = "0.25s" := by
    norm_num [BeautifyDuration, ratTrunc, fmtG6, ratLog10, round_eq, Int.toNat_ofNat,
      (by norm_num : |(1:ℚ)/4| = 1/4), (by decide : digitLen (Int.toNat 4) = 1)] <;> decide
  rw [h]
  decide

/-- C9 amended: largest-to-smallest nonzero units with two-digit zero
padding below the first printed unit and seconds always shown — but the
seconds field is streamed as a double, so `0.25s` renders as `"0.25s"`
(not `"0s"`): `65s → "1m05s"`, `3661s → "1h01m01s"`,
`90065s → "1d01h01m05s"`, `0.25s → "0.25s"`, `0s → "0s"`. -/
theorem beautify_literal_cases :
    BeautifyDuration 65 = "1m05s"
    ∧ BeautifyDuration 3661 = "1h01m01s"
    ∧ BeautifyDuration 90065 = "1d01h01m05s"
    ∧ BeautifyDuration (1/4) = "0.25s"
    ∧ BeautifyDuration 0 = "0s" := by
  refine ⟨?_, ?_, ?_, ?_, ?_⟩
  · norm_num [BeautifyDuration, ratTrunc, fmtG6, ratLog10, round_eq, Int.toNat_ofNat,
      (by decide : digitLen (Int.toNat 5) = 1)] <;> decide
  · norm_num [BeautifyDuration, ratTrunc, fmtG6, ratLog10, round_eq, Int.toNat_ofNat,
      (by decide : digitLen 1 = 1), (by decide : digitLen (Int.toNat 1) = 1)] <;> decide
  · norm_num [BeautifyDuration, ratTrunc, fmtG6, ratLog10, round_eq, Int.toNat_ofNat,
      (by decide : digitLen (Int.toNat 5) = 1)] <;> decide
  · norm_num [BeautifyDuration, ratTrunc, fmtG6, ratLog10, round_eq, Int.toNat_ofNat,
      (by norm_num : |(1:ℚ)/4| = 1/4), (by decide : digitLen (Int.toNat 4) = 1)] <;> decide
  · norm_num [BeautifyDuration, ratTrunc, fmtG6, ratLog10, round_eq, Int.toNat_ofNat] <;> decide

/-- C2 counterexample: at ratio 1/2 the rendered percentage text is
`" 50.0%"`, which has 6 characters, not 7: `snprintf` needs the 7th
buffer byte for its NUL terminator and `pop_back()` then removes it. -/
theorem percent_len_counterexample : ¬ (get_progress_summary (1/2)).length = 7 := by
  norm_num [get_progress_summary, fmt51, fmt51OfInt, padLeftWith, round_eq] <;> decide

theorem string_length_mk (l : List Char) : (String.mk l).length = l.length := rfl

theorem string_toList_length (s : String) : s.toList.length = s.length := rfl

set_option maxRecDepth 10000 in
theorem fmt51OfInt_length_nat : ∀ m : ℕ, m ≤ 1000 → (fmt51OfInt (m : ℤ)).length = 5 := by
  decide

theorem fmt51OfInt_length (n : ℤ) (h0 : 0 ≤ n) (h1 : n ≤ 1000) :
    (fmt51OfInt n).length = 5 := by
  have h := fmt51OfInt_length_nat n.toNat (by omega)
  rwa [Int.toNat_of_nonneg h0] at h

/-- C2 amended: for every ratio in `[0,1]` the rendered percentage text
has exactly 6 characters including the `%` sign (the constant 7 is the
`snprintf` buffer size, whose last byte holds the NUL that `pop_back()`
strips), formatted as `"%5.1f%%"` of `ratio * 100`:
`"  0.0%"`, `" 50.0%"`, `"100.0%"`. -/
theorem percent_text_six_chars :
    (∀ r : ℚ, 0 ≤ r → r ≤ 1 → (get_progress_summary r).length = 6)
    ∧ get_progress_summary 0 = "  0.0%"
    ∧ get_progress_summary (1/2) = " 50.0%"
    ∧ get_progress_summary 1 = "100.0%" := by
  refine ⟨?_, ?_, ?_, ?_⟩
  · intro r h0 h1
    have hn0 : (0 : ℤ) ≤ round (r * 100 * 10) := by
      rw [round_eq]
      apply Int.floor_nonneg.mpr
      have hx : (0 : ℚ) ≤ r * 100 * 10 := by positivity
      linarith
    have hn1 : round (r * 100 * 10) ≤ 1000 := by
      rw [round_eq]
      have hx : (r * 100 * 10 + 1/2 : ℚ) ≤ 1000 + 1/2 := by linarith
      calc ⌊r * 100 * 10 + 1/2⌋ ≤ ⌊(1000 + 1/2 : ℚ)⌋ := Int.floor_le_floor hx
        _ = 1000 := by norm_num
    have hlen5 : (fmt51OfInt (round (r * 100 * 10))).length = 5 :=
      fmt51OfInt_length _ hn0 hn1
    simp only [get_progress_summary, fmt51]
    generalize hgen : fmt51OfInt (round (r * 100 * 10)) ++ "%" = s
    have hslen : s.length = 6 := by
      rw [← hgen, String.length_append, hlen5]
      rfl
    have htl : s.toList.length = 6 := by
      rw [string_toList_length, hslen]
    rw [List.take_of_length_le (le_of_eq htl)]
    have h7 : (s.toList ++ [Char.ofNat 0]).length = 7 := by simp [hslen]
    rw [h7]
    simp [List.dropLast_concat, string_length_mk, hslen]
  · norm_num [get_progress_summary, fmt51, fmt51OfInt, padLeftWith, round_eq] <;> decide
  · norm_num [get_progress_summary, fmt51, fmt51OfInt, padLeftWith, round_eq] <;> decide
  · norm_num [get_progress_summary, fmt51, fmt51OfInt, padLeftWith, round_eq] <;> decide

/-- Witness for C2 (amended) at ratio 1/2. -/
theorem percent_text_six_chars_witness : (get_progress_summary (1/2)).length = 6 :=
  percent_text_six_chars.1 (1/2) (by norm_num) (by norm_num)

/-! Arithmetic of the render throttle, for the render-count bound. -/

theorem renderCount_eq_zero (f total : ℕ) :
    ∀ (ds : List ℕ), ds.sum = 0 → ∀ p, renderCount f total p ds = 0 := by
  intro ds
  induction ds with
  | nil => intro _ p; rfl
  | cons d ds ih =>
    intro h p
    have hsum : d + ds.sum = 0 := by simpa using h
    have hd0 : d = 0 := by omega
    have hs0 : ds.sum = 0 := by omega
    simp only [renderCount]
    rw [if_neg (fun hc => hc.1 hd0)]
    simp [ih hs0]

theorem renderCount_le (f total : ℕ) (ds : List ℕ) :
    ∀ p, p + ds.sum ≤ total →
      renderCount f total p ds + p / f ≤ (p + ds.sum) / f + 1 := by
  induction ds with
  | nil => intro p _; simp [renderCount]
  | cons d ds ih =>
    intro p hple
    have hsum2 : p + d + ds.sum ≤ total := by
      have h := hple
      simp [List.sum_cons] at h
      omega
    have hassoc : p + (d :: ds).sum = p + d + ds.sum := by
      simp [List.sum_cons]
      omega
    rw [hassoc]
    simp only [renderCount]
    by_cases hc : d ≠ 0 ∧ (p + d = total ∨ p / f < (p + d) / f)
    · rw [if_pos hc]
      by_cases hcross : p / f < (p + d) / f
      · have ihq := ih (p + d) hsum2
        omega
      · have htot : p + d = total := hc.2.resolve_right hcross
        have hzero : ds.sum = 0 := by omega
        rw [renderCount_eq_zero f total ds hzero (p + d)]
        have hmono : p / f ≤ (p + d) / f := Nat.div_le_div_right (by omega)
        rw [hzero]
        simp only [Nat.add_zero]
        omega
    · rw [if_neg hc]
      have ihq := ih (p + d) hsum2
      have hmono : p / f ≤ (p + d) / f := Nat.div_le_div_right (by omega)
      omega

theorem renderCount_le_of_dvd (f total : ℕ) (hf : 0 < f) (hdvd : f ∣ total)
    (ds : List ℕ) :
    ∀ p, p + ds.sum ≤ total →
      renderCount f total p ds + p / f ≤ (p + ds.sum) / f := by
  induction ds with
  | nil => intro p _; simp [renderCount]
  | cons d ds ih =>
    intro p hple
    have hsum2 : p + d + ds.sum ≤ total := by
      have h := hple
      simp [List.sum_cons] at h
      omega
    have hassoc : p + (d :: ds).sum = p + d + ds.sum := by
      simp [List.sum_cons]
      omega
    rw [hassoc]
    simp only [renderCount]
    by_cases hc : d ≠ 0 ∧ (p + d = total ∨ p / f < (p + d) / f)
    · rw [if_pos hc]
      have hcross : p / f < (p + d) / f := by
        rcases hc.2 with htot | hcr
        · obtain ⟨k, hk⟩ := hdvd
          have hk0 : k ≠ 0 := by
            rintro rfl
            rw [Nat.mul_zero] at hk
            omega
          have hfk1 : 0 < f * k := Nat.mul_pos hf (Nat.pos_of_ne_zero hk0)
          have h2 : (f * k - 1) / f = k - 1 := by
            apply Nat.div_eq_of_lt_le
            · have e1 : (k - 1) * f = k * f - f := by
                rw [Nat.sub_mul, one_mul]
              rw [e1, Nat.mul_comm k f]
              omega
            · have e2 : (k - 1 + 1) * f = k * f := by
                have : k - 1 + 1 = k := by omega
                rw [this]
              rw [e2, Nat.mul_comm k f]
              omega
          have h3 : total / f = k := by
            rw [hk]
            exact Nat.mul_div_cancel_left k hf
          have h4 : p / f ≤ (f * k - 1) / f := Nat.div_le_div_right (by omega)
          rw [htot, h3]
          omega
        · exact hcr
      have ihq := ih (p + d) hsum2
      omega
    · rw [if_neg hc]
      have ihq := ih (p + d) hsum2
      have hmono : p / f ≤ (p + d) / f := Nat.div_le_div_right (by omega)
      omega

theorem ceil_div_of_not_dvd (f total : ℕ) (hf : 0 < f) (h : ¬ f ∣ total) :
    (total + f - 1) / f = total / f + 1 := by
  have h1 : total + f - 1 = total + (f - 1) := by omega
  rw [h1, Nat.add_div hf]
  have hfe : (f - 1) / f = 0 := Nat.div_eq_of_lt (by omega)
  have hfm : (f - 1) % f = f - 1 := Nat.mod_eq_of_lt (by omega)
  have hm0 : total % f ≠ 0 := by
    intro hc
    exact h (Nat.dvd_iff_mod_eq_zero.mpr hc)
  have hml : total % f < f := Nat.mod_lt _ hf
  rw [hfe, hfm, if_pos (by omega)]

theorem runIncrements_spec (cw : ℕ) (e : ℚ) (ts : String) (ds : List ℕ) :
    ∀ (st : ProgressBar), st.silent = false →
      (runIncrements cw e ts st ds).2.1
          = renderCount st.frequency_update st.total st.progress ds
      ∧ (runIncrements cw e ts st ds).1.progress = st.progress + ds.sum := by
  induction ds with
  | nil =>
    intro st _
    simp [runIncrements, renderCount]
  | cons d ds ih =>
    intro st hs
    have hfields := plusEq_fields cw e ts st d
    have hprog := plusEq_progress cw e ts st d hs
    have hsil : (plusEq cw e ts st d).state.silent = false := by
      rw [hfields.1, hs]
    have ihr := ih (plusEq cw e ts st d).state hsil
    have hiff := plusEq_rendered_iff cw e ts st d hs
    simp only [runIncrements, renderCount, List.sum_cons]
    constructor
    · have hrest : (runIncrements cw e ts (plusEq cw e ts st d).state ds).2.1
          = renderCount st.frequency_update st.total (st.progress + d) ds := by
        rw [ihr.1, hfields.2.1, hfields.2.2, hprog]
      by_cases hC : d ≠ 0 ∧ (st.progress + d = st.total
          ∨ st.progress / st.frequency_update
              < (st.progress + d) / st.frequency_update)
      · rw [if_pos (hiff.mpr hC), if_pos hC, hrest]
      · rw [if_neg (fun hb => hC (hiff.mp hb)), if_neg hC, hrest]
    · rw [ihr.2, hprog]
      omega

/-- C3: for any positive `total`, any fixed positive update frequency `f`,
and any increment sequence summing to `total`, the number of
`ShowProgress` invocations — the constructor's initial render plus those
of all `operator+=` calls — is at most `ceil(total/f) + 1`
(= `(total + f - 1) / f + 1`), and the final counter equals `total`
regardless of increment granularity. -/
theorem render_invocations_bounded (cw : ℕ) (e : ℚ) (ts : String)
    (st : ProgressBar) (total f : ℕ) (ds : List ℕ)
    (hs : st.silent = false) (hp : st.progress = 0) (ht : st.total = total)
    (hf : st.frequency_update = f) (h1 : 0 < f) (h0 : 0 < total)
    (hsum : ds.sum = total) :
    ctorRenderCount st + (runIncrements cw e ts st ds).2.1 ≤ (total + f - 1) / f + 1
    ∧ (runIncrements cw e ts st ds).1.progress = total := by
  have hrun := runIncrements_spec cw e ts ds st hs
  have hcount : (runIncrements cw e ts st ds).2.1 = renderCount f total 0 ds := by
    rw [hrun.1, hf, ht, hp]
  have hctor : ctorRenderCount st = 1 := by
    unfold ctorRenderCount
    rw [hs]
    rfl
  constructor
  · rw [hcount, hctor]
    by_cases hdvd : f ∣ total
    · have hb := renderCount_le_of_dvd f total h1 hdvd ds 0 (by omega)
      rw [hsum] at hb
      simp only [Nat.zero_add, Nat.zero_div, Nat.add_zero] at hb
      have hmono : total / f ≤ (total + f - 1) / f := Nat.div_le_div_right (by omega)
      omega
    · have hb := renderCount_le f total ds 0 (by omega)
      rw [hsum] at hb
      simp only [Nat.zero_add, Nat.zero_div, Nat.add_zero] at hb
      have hceil := ceil_div_of_not_dvd f total h1 hdvd
      omega
  · rw [hrun.2, hp, hsum]
    omega

/-- Witness for C3: total 3, frequency 2, increments `[1, 1, 1]` on a
concrete logging-mode bar; the bound is `ceil(3/2) + 1 = 3`. -/
theorem render_invocations_bounded_witness :
    ctorRenderCount stSmall + (runIncrements 100 0 "" stSmall [1, 1, 1]).2.1
        ≤ (3 + 2 - 1) / 2 + 1
    ∧ (runIncrements 100 0 "" stSmall [1, 1, 1]).1.progress = 3 :=
  render_invocations_bounded 100 0 "" stSmall 3 2 [1, 1, 1] rfl rfl rfl rfl
    (by decide) (by decide) (by decide)
